import Mathlib

/-!
Verification of the cellevo parallel cellular-automaton core.

The definitions below are a shallow embedding of the repository's source:
  - `CellsState` embeds `src/routes/cells-state.ts` (class `CellsState`):
    three byte arrays modelled as total functions `Nat → Nat` plus the
    `indication` control byte, with `getCurrent`, `getNext` and
    `switchIndication` translated directly.
  - `CellsMachine.evolve` embeds the worker's `CellsMachine.evolve` loop
    (the sequential pass over `[arrayScopeOffsetStart, arrayScopeOffsetEnd)`
    that writes next-generation values through `getNext()`).
  - `draw` embeds `CellsRenderer.draw`; the canvas side effects
    (`drawCell` / `clearCell`) are recorded as a list of `RenderOp`s.
  - `scopeStart` embeds the partition computation of `initMatrix`.
  - `WorkersController.post` / `onWaitingAfter` / `completionsFired` embed
    the coordinator's waiting-counter bookkeeping in `workersController`.
  - `relayEmits` embeds the messages the worker's `relay` handler posts.
  - `switchCell` embeds the page's `switchCell` mouse handler, taking the
    already-floored column/row integers as input.
Definitions whose name starts with `spec` are written from the natural
language specification (the reference Game-of-Life step) and are compared
against the source-derived definitions in the theorems.
-/

namespace Cellevo

/-- Embeds `CellsState` of `cells-state.ts`: the three equal-length byte
arrays of the shared buffer are modelled as total functions from flat index
to cell value, and `indication` is the control byte selecting which of
left/right is current. -/
structure CellsState where
  xLen : Nat
  yLen : Nat
  leftArray : Nat → Nat
  rightArray : Nat → Nat
  lastStateArray : Nat → Nat
  indication : Nat

/-- `getCurrent = () => indication[0] === 0 ? leftArray : rightArray`. -/
def CellsState.getCurrent (s : CellsState) : Nat → Nat :=
  if s.indication = 0 then s.leftArray else s.rightArray

/-- `getNext = () => indication[0] === 1 ? leftArray : rightArray`. -/
def CellsState.getNext (s : CellsState) : Nat → Nat :=
  if s.indication = 1 then s.leftArray else s.rightArray

/-- `switchIndication = () => indication[0] = indication[0] === 0 ? 1 : 0`. -/
def CellsState.switchIndication (s : CellsState) : CellsState :=
  { s with indication := if s.indication = 0 then 1 else 0 }

/-- A single store `nextState[i] = v` where `nextState = getNext()`:
the write lands in whichever array `getNext` selects. -/
def CellsState.setNextAt (s : CellsState) (i v : Nat) : CellsState :=
  if s.indication = 1 then { s with leftArray := Function.update s.leftArray i v }
  else { s with rightArray := Function.update s.rightArray i v }

/-- A single store `currentState[i] = v` where `currentState = getCurrent()`. -/
def CellsState.setCurrentAt (s : CellsState) (i v : Nat) : CellsState :=
  if s.indication = 0 then { s with leftArray := Function.update s.leftArray i v }
  else { s with rightArray := Function.update s.rightArray i v }

/-- Embeds the worker's `CellsMachine` rule sets (`bRules`, `sRules`);
the JS `Set<number>` is modelled as a list with membership. -/
structure CellsMachine where
  bRules : List Nat
  sRules : List Nat

/-- The toroidal wrap `(base + len) % len` used by the neighbor loops; JS
`%` on the nonnegative dividend `x + dx + len` is truncated remainder. -/
def torusWrap (base : Int) (len : Nat) : Nat :=
  ((base + (len : Int)).tmod (len : Int)).toNat

/-- The `(dx, dy)` pairs visited by the nested `dy`/`dx` loops of
`evolve`, in iteration order, with `(0, 0)` skipped. -/
def neighborDeltas : List (Int × Int) :=
  [(-1, -1), (0, -1), (1, -1), (-1, 0), (1, 0), (-1, 1), (0, 1), (1, 1)]

/-- The `aliveNeighbors` accumulation of `evolve`: for each delta, wrap the
coordinates and test `currentState[ny * xLen + nx] === 1`. -/
def countAliveNeighbors (cur : Nat → Nat) (w h x y : Nat) : Nat :=
  neighborDeltas.foldl
    (fun acc d =>
      if cur (torusWrap ((y : Int) + d.2) h * w + torusWrap ((x : Int) + d.1) w) = 1
      then acc + 1 else acc) 0

/-- The body of one iteration of the `evolve` loop: decompose the flat
index, count alive neighbors, and apply the born/survive rule chain. -/
def evolveCellValue (m : CellsMachine) (cur : Nat → Nat) (w h index : Nat) : Nat :=
  if ¬ cur index = 1 ∧ countAliveNeighbors cur w h (index % w) (index / w) ∈ m.bRules then 1
  else if cur index = 1 ∧ countAliveNeighbors cur w h (index % w) (index / w) ∈ m.sRules then 1
  else 0

/-- The `for (let index = start; index < stop; index++)` loop of `evolve`,
recursing on the number of remaining iterations; each iteration writes the
computed value at `index` through `getNext()`. -/
def CellsMachine.evolveFrom (m : CellsMachine) : Nat → Nat → CellsState → CellsState
  | _, 0, s => s
  | index, n + 1, s =>
      m.evolveFrom (index + 1) n
        (s.setNextAt index (evolveCellValue m s.getCurrent s.xLen s.yLen index))

/-- `CellsMachine.evolve` over the partition `[start, stop)`. -/
def CellsMachine.evolve (m : CellsMachine) (start stop : Nat) (s : CellsState) : CellsState :=
  m.evolveFrom start (stop - start) s

/-- Modelled from the spec: the count of alive (value 1) cells among the 8
toroidal wraparound neighbors `((x+dx+W)%W, (y+dy+H)%H)` of `(x, y)`. -/
def specNeighborCount (cur : Nat → Nat) (w h x y : Nat) : Nat :=
  (neighborDeltas.map
    (fun d =>
      if cur (torusWrap ((y : Int) + d.2) h * w + torusWrap ((x : Int) + d.1) w) = 1
      then 1 else 0)).sum

/-- Modelled from the spec: the reference generalized Game-of-Life step at
cell `(x, y)` — write 1 iff the cell is dead and the neighbor count is in
`born`, or the cell is alive and the count is in `survive`; else 0. -/
def specStep (born survive : List Nat) (cur : Nat → Nat) (w h x y : Nat) : Nat :=
  if (¬ cur (y * w + x) = 1 ∧ specNeighborCount cur w h x y ∈ born)
      ∨ (cur (y * w + x) = 1 ∧ specNeighborCount cur w h x y ∈ survive)
  then 1 else 0

/-- A canvas side effect of `CellsRenderer.draw`: `drawCell(col, row)`
stamps the cell image, `clearCell(col, row)` clears its pixel rectangle. -/
inductive RenderOp where
  | drawCell (col row : Nat)
  | clearCell (col row : Nat)
deriving DecidableEq

/-- `lastStateArray[index] = valueAtCurrentIndex` performed by `draw`
after stamping or clearing a changed cell. -/
def recordCell (s : CellsState) (index : Nat) : CellsState :=
  { s with lastStateArray := Function.update s.lastStateArray index (s.getCurrent index) }

/-- The operation `draw` performs on a changed cell: `drawCell` when the
new value is nonzero, `clearCell` when it is zero, at canvas coordinates
`((index - scopeStart) % xLen, (index - scopeStart) / xLen)`. -/
def cellOp (s : CellsState) (scopeStart index : Nat) : RenderOp :=
  if ¬ s.getCurrent index = 0 then
    RenderOp.drawCell ((index - scopeStart) % s.xLen) ((index - scopeStart) / s.xLen)
  else
    RenderOp.clearCell ((index - scopeStart) % s.xLen) ((index - scopeStart) / s.xLen)

/-- The `for (let index = ...)` loop of `CellsRenderer.draw`, recursing on
the number of remaining iterations: a cell is touched only when
`getCurrent()[index] !== lastStateArray[index]`, in which case the stamp or
clear operation is emitted and `lastStateArray[index]` is updated. -/
def drawAux (scopeStart : Nat) : Nat → Nat → CellsState → CellsState × List RenderOp
  | _, 0, s => (s, [])
  | index, n + 1, s =>
      if ¬ s.getCurrent index = s.lastStateArray index then
        ((drawAux scopeStart (index + 1) n (recordCell s index)).1,
          cellOp s scopeStart index :: (drawAux scopeStart (index + 1) n (recordCell s index)).2)
      else drawAux scopeStart (index + 1) n s

/-- `CellsRenderer.draw` over the partition `[start, stop)`, returning the
final state and the list of canvas operations in order. -/
def draw (start stop : Nat) (s : CellsState) : CellsState × List RenderOp :=
  drawAux start start (stop - start) s

/-- `initMatrix`: rows assigned to worker `i`,
`Math.floor(yLen / count) + (i < yLen % count ? 1 : 0)`. -/
def arrayScopeYLen (yLen count i : Nat) : Nat :=
  yLen / count + (if i < yLen % count then 1 else 0)

/-- `initMatrix`: the running `arrayScopePool` offset — worker `i`'s
partition is `[scopeStart xLen yLen count i, scopeStart xLen yLen count (i+1))`. -/
def scopeStart (xLen yLen count : Nat) : Nat → Nat
  | 0 => 0
  | i + 1 => scopeStart xLen yLen count i + arrayScopeYLen yLen count i * xLen

/-- The coordinator's waiting-counter state (`workersController.count`,
`workersController.waiting`), as JS numbers. -/
structure WorkersController where
  count : Int
  waiting : Int

/-- `workersController.post`: a message to one worker decrements `waiting`
by 1; a broadcast posts to all `count` workers, decrementing once each. -/
def WorkersController.post (c : WorkersController) (specificWorker : Int) : WorkersController :=
  if -1 < specificWorker ∧ specificWorker < c.count then { c with waiting := c.waiting - 1 }
  else { c with waiting := c.waiting - c.count }

/-- The `<WAITING-AFTER>` branch of `workersController.relay`: increment
`waiting`; the phase-transition policy fires iff `waiting === count`. -/
def WorkersController.onWaitingAfter (c : WorkersController) : WorkersController × Bool :=
  ({ c with waiting := c.waiting + 1 }, c.waiting + 1 == c.count)

/-- `k` successive `<WAITING-AFTER>` notifications: the final controller
state and how many times the phase-transition policy fired. -/
def completionsFired : Nat → WorkersController → WorkersController × Nat
  | 0, c => (c, 0)
  | k + 1, c =>
      ((completionsFired k c.onWaitingAfter.1).1,
        (if c.onWaitingAfter.2 then 1 else 0) + (completionsFired k c.onWaitingAfter.1).2)

/-- A message the worker posts back to the coordinator: the
`<WAITING-AFTER>` completion notification carrying the received message's
type, or an `<ERROR>` notification carrying a human-readable string. -/
inductive WorkerMsg where
  | waitingAfter (tag : String)
  | errorMsg (text : String)
deriving DecidableEq

/-- The six command tags the worker's `relay` switch recognizes. -/
def recognizedCommands : List String :=
  ["<INIT>", "<EVOLVE>", "<RENDER>", "<CHANGE-RULES>", "<RANDOM>", "<CLEAR>"]

/-- True exactly on `<WAITING-AFTER>` completion notifications. -/
def isCompletion : WorkerMsg → Bool
  | WorkerMsg.waitingAfter _ => true
  | WorkerMsg.errorMsg _ => false

/-- The messages the worker's `relay` handler posts for one incoming
message, in order: the switch posts `<ERROR>` only in its default case
(`msgRepr` stands for `JSON.stringify(ev.data)`), and after the switch the
handler always posts `<WAITING-AFTER>` tagged with `ev.data.type`. -/
def relayEmits (msgType msgRepr : String) : List WorkerMsg :=
  (if msgType = "<INIT>" then []
   else if msgType = "<EVOLVE>" then []
   else if msgType = "<RENDER>" then []
   else if msgType = "<CHANGE-RULES>" then []
   else if msgType = "<RANDOM>" then []
   else if msgType = "<CLEAR>" then []
   else [WorkerMsg.errorMsg ("worker received unknown type of message: " ++ msgRepr)])
  ++ [WorkerMsg.waitingAfter msgType]

/-- The page's `switchCell` handler, taking the already-computed
`caclulatedColumn`/`caclulatedRow` integers (`Math.floor` of mouse offset
over cell size, so possibly negative): a coordinate outside
`[0, xLen-1] × [0, yLen-1]` becomes `null` and the handler returns without
touching the grid; otherwise `currentState[row*xLen+column]` is toggled. -/
def switchCell (cc cr : Int) (s : CellsState) : CellsState :=
  if (0 ≤ cc ∧ cc ≤ (s.xLen : Int) - 1) ∧ (0 ≤ cr ∧ cr ≤ (s.yLen : Int) - 1) then
    s.setCurrentAt (cr.toNat * s.xLen + cc.toNat)
      (if s.getCurrent (cr.toNat * s.xLen + cc.toNat) = 0 then 1 else 0)
  else s

/-- The consecutive partition ranges cut at the given boundary offsets. -/
def zipRanges (bounds : List Nat) : List (Nat × Nat) :=
  bounds.zip bounds.tail

/-- The concatenation of per-partition evolution results: the value at `i`
of the `next()` array of whichever partition's separately-run evolve (each
starting from the same state `s`) covers `i`. -/
def concatNext (m : CellsMachine) (ranges : List (Nat × Nat)) (s : CellsState) (i : Nat) : Nat :=
  match ranges.find? (fun r => decide (r.1 ≤ i ∧ i < r.2)) with
  | some r => (m.evolve r.1 r.2 s).getNext i
  | none => s.getNext i

/-- Classic Game-of-Life rules `born = {3}`, `survive = {2, 3}` (the
page's initial `rules`). -/
def golRules : CellsMachine := ⟨[3], [2, 3]⟩

/-- A 5×5 grid holding a horizontal blinker in its middle row, left array
current. -/
def blinkerState : CellsState :=
  ⟨5, 5, fun i => if i = 11 ∨ i = 12 ∨ i = 13 then 1 else 0, fun _ => 0, fun _ => 0, 0⟩

/-- A 2×2 grid with alternating cells and every `lastStateArray` entry set
to the sentinel 2, as `initMatrix` does to force a full redraw. -/
def redrawState : CellsState :=
  ⟨2, 2, fun i => i % 2, fun _ => 0, fun _ => 2, 0⟩

/-! ## Basic lemmas about the state operations -/

theorem setNextAt_xLen (s : CellsState) (i v : Nat) : (s.setNextAt i v).xLen = s.xLen := by
  unfold CellsState.setNextAt; split <;> rfl

theorem setNextAt_yLen (s : CellsState) (i v : Nat) : (s.setNextAt i v).yLen = s.yLen := by
  unfold CellsState.setNextAt; split <;> rfl

theorem setNextAt_indication (s : CellsState) (i v : Nat) :
    (s.setNextAt i v).indication = s.indication := by
  unfold CellsState.setNextAt; split <;> rfl

theorem setNextAt_lastState (s : CellsState) (i v : Nat) :
    (s.setNextAt i v).lastStateArray = s.lastStateArray := by
  unfold CellsState.setNextAt; split <;> rfl

theorem getNext_setNextAt (s : CellsState) (i v : Nat) :
    (s.setNextAt i v).getNext = Function.update s.getNext i v := by
  unfold CellsState.setNextAt CellsState.getNext
  split <;> rename_i h <;> simp [h]

theorem getCurrent_setNextAt (s : CellsState) (i v : Nat) (h : s.indication ≤ 1) :
    (s.setNextAt i v).getCurrent = s.getCurrent := by
  rcases Nat.le_one_iff_eq_zero_or_eq_one.mp h with h0 | h0 <;>
    simp [CellsState.setNextAt, CellsState.getCurrent, h0]

theorem setCurrentAt_xLen (s : CellsState) (i v : Nat) : (s.setCurrentAt i v).xLen = s.xLen := by
  unfold CellsState.setCurrentAt; split <;> rfl

theorem setCurrentAt_yLen (s : CellsState) (i v : Nat) : (s.setCurrentAt i v).yLen = s.yLen := by
  unfold CellsState.setCurrentAt; split <;> rfl

theorem setCurrentAt_indication (s : CellsState) (i v : Nat) :
    (s.setCurrentAt i v).indication = s.indication := by
  unfold CellsState.setCurrentAt; split <;> rfl

theorem setCurrentAt_lastState (s : CellsState) (i v : Nat) :
    (s.setCurrentAt i v).lastStateArray = s.lastStateArray := by
  unfold CellsState.setCurrentAt; split <;> rfl

theorem getCurrent_setCurrentAt (s : CellsState) (i v : Nat) :
    (s.setCurrentAt i v).getCurrent = Function.update s.getCurrent i v := by
  unfold CellsState.setCurrentAt CellsState.getCurrent
  split <;> rename_i h <;> simp [h]

theorem getNext_setCurrentAt (s : CellsState) (i v : Nat) (h : s.indication ≤ 1) :
    (s.setCurrentAt i v).getNext = s.getNext := by
  rcases Nat.le_one_iff_eq_zero_or_eq_one.mp h with h0 | h0 <;>
    simp [CellsState.setCurrentAt, CellsState.getNext, h0]

/-! ## Lemmas about the evolve loop -/

theorem evolveFrom_xLen (m : CellsMachine) :
    ∀ (n index : Nat) (s : CellsState), (m.evolveFrom index n s).xLen = s.xLen := by
  intro n
  induction n with
  | zero => intro index s; rfl
  | succ k ih => intro index s; rw [CellsMachine.evolveFrom, ih, setNextAt_xLen]

theorem evolveFrom_yLen (m : CellsMachine) :
    ∀ (n index : Nat) (s : CellsState), (m.evolveFrom index n s).yLen = s.yLen := by
  intro n
  induction n with
  | zero => intro index s; rfl
  | succ k ih => intro index s; rw [CellsMachine.evolveFrom, ih, setNextAt_yLen]

theorem evolveFrom_indication (m : CellsMachine) :
    ∀ (n index : Nat) (s : CellsState), (m.evolveFrom index n s).indication = s.indication := by
  intro n
  induction n with
  | zero => intro index s; rfl
  | succ k ih => intro index s; rw [CellsMachine.evolveFrom, ih, setNextAt_indication]

theorem evolveFrom_lastState (m : CellsMachine) :
    ∀ (n index : Nat) (s : CellsState),
      (m.evolveFrom index n s).lastStateArray = s.lastStateArray := by
  intro n
  induction n with
  | zero => intro index s; rfl
  | succ k ih => intro index s; rw [CellsMachine.evolveFrom, ih, setNextAt_lastState]

theorem evolveFrom_getCurrent (m : CellsMachine) :
    ∀ (n index : Nat) (s : CellsState), s.indication ≤ 1 →
      (m.evolveFrom index n s).getCurrent = s.getCurrent := by
  intro n
  induction n with
  | zero => intro index s _; rfl
  | succ k ih =>
      intro index s h
      rw [CellsMachine.evolveFrom, ih _ _ (by rw [setNextAt_indication]; exact h),
        getCurrent_setNextAt _ _ _ h]

theorem evolveFrom_getNext_out (m : CellsMachine) :
    ∀ (n index : Nat) (s : CellsState) (i : Nat), i < index ∨ index + n ≤ i →
      (m.evolveFrom index n s).getNext i = s.getNext i := by
  intro n
  induction n with
  | zero => intro index s i _; rfl
  | succ k ih =>
      intro index s i hi
      rw [CellsMachine.evolveFrom, ih _ _ i (by omega), getNext_setNextAt,
        Function.update_noteq (by omega)]

theorem evolveFrom_getNext_mem (m : CellsMachine) :
    ∀ (n index : Nat) (s : CellsState) (i : Nat), s.indication ≤ 1 →
      index ≤ i → i < index + n →
      (m.evolveFrom index n s).getNext i = evolveCellValue m s.getCurrent s.xLen s.yLen i := by
  intro n
  induction n with
  | zero => intro index s i _ h1 h2; omega
  | succ k ih =>
      intro index s i h h1 h2
      rw [CellsMachine.evolveFrom]
      by_cases hc : i = index
      · subst hc
        rw [evolveFrom_getNext_out m k (i + 1) _ i (Or.inl (by omega)), getNext_setNextAt,
          Function.update_same]
      · rw [ih _ _ i (by rw [setNextAt_indication]; exact h) (by omega) (by omega),
          getCurrent_setNextAt _ _ _ h, setNextAt_xLen, setNextAt_yLen]

theorem evolve_getNext_mem (m : CellsMachine) (s : CellsState) (start stop i : Nat)
    (h : s.indication ≤ 1) (h1 : start ≤ i) (h2 : i < stop) :
    (m.evolve start stop s).getNext i = evolveCellValue m s.getCurrent s.xLen s.yLen i := by
  unfold CellsMachine.evolve
  exact evolveFrom_getNext_mem m (stop - start) start s i h h1 (by omega)

/-! ## The source's per-cell value equals the reference step -/

theorem foldl_if_count {β : Type} (p : β → Prop) [DecidablePred p] :
    ∀ (l : List β) (acc : Nat),
      l.foldl (fun a d => if p d then a + 1 else a) acc
        = acc + (l.map (fun d => if p d then 1 else 0)).sum := by
  intro l
  induction l with
  | nil => intro acc; simp
  | cons d t ih =>
      intro acc
      simp only [List.foldl, List.map, List.sum_cons]
      rw [ih]
      split <;> omega

theorem countAliveNeighbors_eq_spec (cur : Nat → Nat) (w h x y : Nat) :
    countAliveNeighbors cur w h x y = specNeighborCount cur w h x y := by
  have hgen := foldl_if_count
    (fun d : Int × Int =>
      cur (torusWrap ((y : Int) + d.2) h * w + torusWrap ((x : Int) + d.1) w) = 1)
    neighborDeltas 0
  simpa [countAliveNeighbors, specNeighborCount] using hgen

theorem evolveCellValue_eq_specStep (m : CellsMachine) (cur : Nat → Nat) (w h i : Nat) :
    evolveCellValue m cur w h i = specStep m.bRules m.sRules cur w h (i % w) (i / w) := by
  unfold evolveCellValue specStep
  rw [countAliveNeighbors_eq_spec]
  have hcell : i / w * w + i % w = i := Nat.div_add_mod' i w
  rw [hcell]
  split_ifs <;> tauto

/-! ## Claim theorems -/

/-- C1: for every grid with positive dimensions, every rule set, and every
flat index in the unit's partition `[start, stop)`, `evolve` writes to
`next()` at that index the value given by the reference generalized
Game-of-Life step computed from `current()` before the call. -/
theorem cellevo_C1 (m : CellsMachine) (s : CellsState) (start stop i : Nat)
    (hind : s.indication ≤ 1) (hx : 0 < s.xLen) (hy : 0 < s.yLen)
    (h1 : start ≤ i) (h2 : i < stop) :
    (m.evolve start stop s).getNext i
      = specStep m.bRules m.sRules s.getCurrent s.xLen s.yLen (i % s.xLen) (i / s.xLen) := by
  rw [evolve_getNext_mem m s start stop i hind h1 h2, evolveCellValue_eq_specStep]

theorem cellevo_C1_witness :
    (blinkerState.indication ≤ 1 ∧ 0 < blinkerState.xLen ∧ 0 < blinkerState.yLen
      ∧ 0 ≤ 12 ∧ 12 < 25) ∧
    (golRules.evolve 0 25 blinkerState).getNext 12
      = specStep golRules.bRules golRules.sRules blinkerState.getCurrent
          blinkerState.xLen blinkerState.yLen (12 % blinkerState.xLen)
          (12 / blinkerState.xLen) :=
  ⟨⟨by decide, by decide, by decide, by decide, by decide⟩,
    cellevo_C1 golRules blinkerState 0 25 12 (by decide) (by decide) (by decide)
      (by decide) (by decide)⟩

/-- C3: `evolve` never mutates `current()`: only `next()` entries inside
the unit's partition change, `lastRendered` and the dimensions and control
byte are untouched. -/
theorem cellevo_C3 (m : CellsMachine) (s : CellsState) (start stop : Nat)
    (hind : s.indication ≤ 1) :
    (m.evolve start stop s).getCurrent = s.getCurrent ∧
    (m.evolve start stop s).lastStateArray = s.lastStateArray ∧
    (m.evolve start stop s).indication = s.indication ∧
    (m.evolve start stop s).xLen = s.xLen ∧
    (m.evolve start stop s).yLen = s.yLen ∧
    ∀ i, i < start ∨ stop ≤ i → (m.evolve start stop s).getNext i = s.getNext i := by
  unfold CellsMachine.evolve
  exact ⟨evolveFrom_getCurrent m _ _ s hind, evolveFrom_lastState m _ _ s,
    evolveFrom_indication m _ _ s, evolveFrom_xLen m _ _ s, evolveFrom_yLen m _ _ s,
    fun i hi => evolveFrom_getNext_out m _ _ s i (by omega)⟩

theorem cellevo_C3_witness :
    blinkerState.indication ≤ 1 ∧
    ((golRules.evolve 5 20 blinkerState).getCurrent = blinkerState.getCurrent ∧
     (golRules.evolve 5 20 blinkerState).lastStateArray = blinkerState.lastStateArray ∧
     (golRules.evolve 5 20 blinkerState).indication = blinkerState.indication ∧
     (golRules.evolve 5 20 blinkerState).xLen = blinkerState.xLen ∧
     (golRules.evolve 5 20 blinkerState).yLen = blinkerState.yLen ∧
     ∀ i, i < 5 ∨ 20 ≤ i →
       (golRules.evolve 5 20 blinkerState).getNext i = blinkerState.getNext i) :=
  ⟨by decide, cellevo_C3 golRules blinkerState 5 20 (by decide)⟩

/-- C4: `switchIndication` changes only the control byte, leaving all three
arrays and the dimensions intact, and afterwards `current()` is the array
`next()` returned before the call and vice versa. -/
theorem cellevo_C4 (s : CellsState) (h : s.indication ≤ 1) :
    s.switchIndication.leftArray = s.leftArray ∧
    s.switchIndication.rightArray = s.rightArray ∧
    s.switchIndication.lastStateArray = s.lastStateArray ∧
    s.switchIndication.xLen = s.xLen ∧
    s.switchIndication.yLen = s.yLen ∧
    s.switchIndication.getCurrent = s.getNext ∧
    s.switchIndication.getNext = s.getCurrent := by
  rcases Nat.le_one_iff_eq_zero_or_eq_one.mp h with h0 | h0 <;>
    simp [CellsState.switchIndication, CellsState.getCurrent, CellsState.getNext, h0]

theorem cellevo_C4_witness :
    blinkerState.indication ≤ 1 ∧
    (blinkerState.switchIndication.leftArray = blinkerState.leftArray ∧
     blinkerState.switchIndication.rightArray = blinkerState.rightArray ∧
     blinkerState.switchIndication.lastStateArray = blinkerState.lastStateArray ∧
     blinkerState.switchIndication.xLen = blinkerState.xLen ∧
     blinkerState.switchIndication.yLen = blinkerState.yLen ∧
     blinkerState.switchIndication.getCurrent = blinkerState.getNext ∧
     blinkerState.switchIndication.getNext = blinkerState.getCurrent) :=
  ⟨by decide, cellevo_C4 blinkerState (by decide)⟩

theorem coverRange :
    ∀ (rest : List Nat) (a t i : Nat),
      (a :: rest).Chain' (· ≤ ·) → (a :: rest).getLast? = some t → a ≤ i → i < t →
      ∃ r ∈ zipRanges (a :: rest), r.1 ≤ i ∧ i < r.2 := by
  intro rest
  induction rest with
  | nil =>
      intro a t i _ hl hai hit
      simp [List.getLast?] at hl
      omega
  | cons b rest ih =>
      intro a t i hch hl hai hit
      by_cases hib : i < b
      · exact ⟨(a, b), List.mem_cons_self _ _, hai, hib⟩
      · have hl' : (b :: rest).getLast? = some t := by rwa [List.getLast?_cons_cons] at hl
        obtain ⟨r, hr, h1, h2⟩ := ih b t i hch.tail hl' (by omega) hit
        exact ⟨r, List.mem_cons_of_mem _ hr, h1, h2⟩

/-- C2: for every row-aligned partitioning of `[0, W*H)` given by boundary
offsets `bounds`, running `evolve` on each partition separately from the
same starting state and concatenating the per-partition `next()` writes
(`concatNext`) agrees, at every index of the grid, with a single `evolve`
over the whole range with the same rule set. -/
theorem cellevo_C2 (m : CellsMachine) (s : CellsState) (bounds : List Nat) (i : Nat)
    (hind : s.indication ≤ 1) (hx : 0 < s.xLen) (hy : 0 < s.yLen)
    (hchain : bounds.Chain' (· ≤ ·))
    (hhead : bounds.head? = some 0)
    (hlast : bounds.getLast? = some (s.xLen * s.yLen))
    (hrow : ∀ b ∈ bounds, s.xLen ∣ b)
    (hi : i < s.xLen * s.yLen) :
    concatNext m (zipRanges bounds) s i = (m.evolve 0 (s.xLen * s.yLen) s).getNext i := by
  obtain ⟨rest, rfl⟩ : ∃ rest, bounds = 0 :: rest := by
    cases bounds with
    | nil => simp at hhead
    | cons a rest =>
        simp only [List.head?, Option.some_inj] at hhead
        exact ⟨rest, by rw [hhead]⟩
  obtain ⟨r, hrmem, hr1, hr2⟩ :=
    coverRange rest 0 (s.xLen * s.yLen) i hchain hlast (Nat.zero_le i) hi
  unfold concatNext
  cases hfind : (zipRanges (0 :: rest)).find? (fun r => decide (r.1 ≤ i ∧ i < r.2)) with
  | none =>
      exfalso
      have hnone := List.find?_eq_none.mp hfind r hrmem
      simp at hnone
      omega
  | some rf =>
      have hp := List.find?_some hfind
      simp at hp
      show (m.evolve rf.1 rf.2 s).getNext i = (m.evolve 0 (s.xLen * s.yLen) s).getNext i
      rw [evolve_getNext_mem m s rf.1 rf.2 i hind hp.1 hp.2,
        evolve_getNext_mem m s 0 (s.xLen * s.yLen) i hind (Nat.zero_le i) hi]

theorem cellevo_C2_witness :
    (blinkerState.indication ≤ 1 ∧ 0 < blinkerState.xLen ∧ 0 < blinkerState.yLen ∧
      ([0, 10, 25] : List Nat).Chain' (· ≤ ·) ∧
      ([0, 10, 25] : List Nat).head? = some 0 ∧
      ([0, 10, 25] : List Nat).getLast? = some (blinkerState.xLen * blinkerState.yLen) ∧
      (∀ b ∈ ([0, 10, 25] : List Nat), blinkerState.xLen ∣ b) ∧
      12 < blinkerState.xLen * blinkerState.yLen) ∧
    concatNext golRules (zipRanges [0, 10, 25]) blinkerState 12
      = (golRules.evolve 0 (blinkerState.xLen * blinkerState.yLen) blinkerState).getNext 12 :=
  ⟨⟨by decide, by decide, by decide, by simp, by decide, by decide, by decide, by decide⟩,
    cellevo_C2 golRules blinkerState [0, 10, 25] 12 (by decide) (by decide) (by decide)
      (by simp) (by decide) (by decide) (by decide) (by decide)⟩

theorem scopeStart_closed (x y c : Nat) :
    ∀ i, scopeStart x y c i = (i * (y / c) + min i (y % c)) * x := by
  intro i
  induction i with
  | zero => simp [scopeStart]
  | succ k ih =>
      rw [scopeStart, ih, arrayScopeYLen]
      by_cases hk : k < y % c
      · have h1 : min k (y % c) = k := by omega
        have h2 : min (k + 1) (y % c) = k + 1 := by omega
        rw [if_pos hk, h1, h2]
        ring
      · have h1 : min k (y % c) = y % c := by omega
        have h2 : min (k + 1) (y % c) = y % c := by omega
        rw [if_neg hk, h1, h2]
        ring

theorem scopeStart_total (x y c : Nat) (hc : 1 ≤ c) : scopeStart x y c c = x * y := by
  rw [scopeStart_closed]
  have hmod : y % c < c := Nat.mod_lt y hc
  have h1 : min c (y % c) = y % c := by omega
  rw [h1, Nat.div_add_mod y c, Nat.mul_comm]

theorem scopeStart_le_succ (x y c i : Nat) : scopeStart x y c i ≤ scopeStart x y c (i + 1) := by
  rw [scopeStart]
  exact Nat.le_add_right _ _

theorem scopeStart_mono (x y c : Nat) :
    ∀ i j, i ≤ j → scopeStart x y c i ≤ scopeStart x y c j := by
  intro i j
  induction j with
  | zero =>
      intro h
      have : i = 0 := by omega
      rw [this]
  | succ k ih =>
      intro h
      by_cases hik : i ≤ k
      · exact Nat.le_trans (ih hik) (scopeStart_le_succ x y c k)
      · have : i = k + 1 := by omega
        rw [this]

theorem findInterval (f : Nat → Nat) (hstep : ∀ i, f i ≤ f (i + 1)) :
    ∀ (n k : Nat), f 0 ≤ k → k < f n → ∃ i, i < n ∧ f i ≤ k ∧ k < f (i + 1) := by
  intro n
  induction n with
  | zero => intro k h1 h2; omega
  | succ c ih =>
      intro k h1 h2
      by_cases hc : f c ≤ k
      · exact ⟨c, Nat.lt_succ_self c, hc, h2⟩
      · obtain ⟨i, hi, hl, hr⟩ := ih k h1 (by omega)
        exact ⟨i, by omega, hl, hr⟩

/-- C5: for height `y ≥ 0`, width `x > 0` and worker count `c ≥ 1`, the
partitions `[scopeStart i, scopeStart (i+1))` computed at initialization
laid end to end have lengths `arrayScopeYLen · x`, start and end on row
boundaries (multiples of `x`), are pairwise disjoint, and cover exactly
`[0, x*y)`. -/
theorem cellevo_C5 (x y c : Nat) (hc : 1 ≤ c) (hx : 0 < x) :
    scopeStart x y c 0 = 0 ∧
    scopeStart x y c c = x * y ∧
    (∀ i, scopeStart x y c (i + 1) = scopeStart x y c i + arrayScopeYLen y c i * x) ∧
    (∀ i, x ∣ scopeStart x y c i) ∧
    (∀ i j k, i < j →
      ¬ (scopeStart x y c i ≤ k ∧ k < scopeStart x y c (i + 1) ∧
         scopeStart x y c j ≤ k ∧ k < scopeStart x y c (j + 1))) ∧
    (∀ k, k < x * y ↔ ∃ i, i < c ∧ scopeStart x y c i ≤ k ∧ k < scopeStart x y c (i + 1)) := by
  refine ⟨rfl, scopeStart_total x y c hc, fun i => rfl, ?_, ?_, ?_⟩
  · intro i
    induction i with
    | zero => exact dvd_zero x
    | succ k ih =>
        rw [scopeStart]
        exact Nat.dvd_add ih (dvd_mul_left x _)
  · intro i j k hij ⟨h1, h2, h3, h4⟩
    have hmono := scopeStart_mono x y c (i + 1) j hij
    omega
  · intro k
    constructor
    · intro hk
      obtain ⟨i, hi, hl, hr⟩ :=
        findInterval (scopeStart x y c) (scopeStart_le_succ x y c) c k (Nat.zero_le k)
          (by rw [scopeStart_total x y c hc]; exact hk)
      exact ⟨i, hi, hl, hr⟩
    · intro ⟨i, hi, hl, hr⟩
      have hmono := scopeStart_mono x y c (i + 1) c hi
      rw [scopeStart_total x y c hc] at hmono
      omega

theorem cellevo_C5_witness :
    (1 ≤ 3 ∧ 0 < 4) ∧
    (scopeStart 4 5 3 0 = 0 ∧
     scopeStart 4 5 3 3 = 4 * 5 ∧
     (∀ i, scopeStart 4 5 3 (i + 1) = scopeStart 4 5 3 i + arrayScopeYLen 5 3 i * 4) ∧
     (∀ i, 4 ∣ scopeStart 4 5 3 i) ∧
     (∀ i j k, i < j →
       ¬ (scopeStart 4 5 3 i ≤ k ∧ k < scopeStart 4 5 3 (i + 1) ∧
          scopeStart 4 5 3 j ≤ k ∧ k < scopeStart 4 5 3 (j + 1))) ∧
     (∀ k, k < 4 * 5 ↔ ∃ i, i < 3 ∧ scopeStart 4 5 3 i ≤ k ∧ k < scopeStart 4 5 3 (i + 1))) :=
  ⟨⟨by decide, by decide⟩, cellevo_C5 4 5 3 (by decide) (by decide)⟩

/-! ## Lemmas about the draw loop -/

theorem recordCell_getCurrent (s : CellsState) (i : Nat) :
    (recordCell s i).getCurrent = s.getCurrent := rfl

theorem recordCell_xLen (s : CellsState) (i : Nat) : (recordCell s i).xLen = s.xLen := rfl

theorem drawAux_getCurrent :
    ∀ (n sc index : Nat) (s : CellsState), (drawAux sc index n s).1.getCurrent = s.getCurrent := by
  intro n
  induction n with
  | zero => intro sc index s; rfl
  | succ k ih =>
      intro sc index s
      rw [drawAux]
      split
      · rw [ih, recordCell_getCurrent]
      · rw [ih]

theorem drawAux_xLen :
    ∀ (n sc index : Nat) (s : CellsState), (drawAux sc index n s).1.xLen = s.xLen := by
  intro n
  induction n with
  | zero => intro sc index s; rfl
  | succ k ih =>
      intro sc index s
      rw [drawAux]
      split
      · rw [ih, recordCell_xLen]
      · rw [ih]

theorem drawAux_yLen :
    ∀ (n sc index : Nat) (s : CellsState), (drawAux sc index n s).1.yLen = s.yLen := by
  intro n
  induction n with
  | zero => intro sc index s; rfl
  | succ k ih =>
      intro sc index s
      rw [drawAux]
      split
      · rw [ih]; rfl
      · rw [ih]

theorem drawAux_indication :
    ∀ (n sc index : Nat) (s : CellsState), (drawAux sc index n s).1.indication = s.indication := by
  intro n
  induction n with
  | zero => intro sc index s; rfl
  | succ k ih =>
      intro sc index s
      rw [drawAux]
      split
      · rw [ih]; rfl
      · rw [ih]

theorem drawAux_lastState_out :
    ∀ (n sc index : Nat) (s : CellsState) (i : Nat), i < index ∨ index + n ≤ i →
      (drawAux sc index n s).1.lastStateArray i = s.lastStateArray i := by
  intro n
  induction n with
  | zero => intro sc index s i _; rfl
  | succ k ih =>
      intro sc index s i hi
      rw [drawAux]
      split
      · rw [ih _ _ _ i (by omega)]
        show Function.update s.lastStateArray index (s.getCurrent index) i = _
        rw [Function.update_noteq (by omega)]
      · rw [ih _ _ _ i (by omega)]

theorem drawAux_lastState_mem :
    ∀ (n sc index : Nat) (s : CellsState) (i : Nat), index ≤ i → i < index + n →
      (drawAux sc index n s).1.lastStateArray i = s.getCurrent i := by
  intro n
  induction n with
  | zero => intro sc index s i h1 h2; omega
  | succ k ih =>
      intro sc index s i h1 h2
      rw [drawAux]
      by_cases hc : i = index
      · subst hc
        split
        · rw [drawAux_lastState_out k sc (i + 1) _ i (Or.inl (by omega))]
          show Function.update s.lastStateArray i (s.getCurrent i) i = _
          rw [Function.update_same]
        · rw [drawAux_lastState_out k sc (i + 1) s i (Or.inl (by omega))]
          rename_i hne
          rw [not_not] at hne
          exact hne.symm
      · split
        · rw [ih _ _ _ i (by omega) (by omega), recordCell_getCurrent]
        · exact ih _ _ _ i (by omega) (by omega)

theorem drawAux_noop :
    ∀ (n sc index : Nat) (s : CellsState),
      (∀ i, index ≤ i → i < index + n → s.getCurrent i = s.lastStateArray i) →
      drawAux sc index n s = (s, []) := by
  intro n
  induction n with
  | zero => intro sc index s _; rfl
  | succ k ih =>
      intro sc index s h
      rw [drawAux, if_neg (by
        rw [not_not]
        exact h index (Nat.le_refl index) (by omega))]
      exact ih _ _ _ (fun i h1 h2 => h i (by omega) (by omega))

/-- C6: after one `draw` the `lastRendered` entries of the partition equal
the corresponding `current()` entries, `current()` is untouched, and a
second `draw` with no intervening state change performs zero stamp and
zero clear operations and changes nothing. -/
theorem cellevo_C6 (s : CellsState) (start stop : Nat) :
    (∀ i ∈ List.range' start (stop - start),
      (draw start stop s).1.lastStateArray i = s.getCurrent i) ∧
    (draw start stop s).1.getCurrent = s.getCurrent ∧
    draw start stop ((draw start stop s).1) = ((draw start stop s).1, []) := by
  refine ⟨?_, drawAux_getCurrent _ _ _ s, ?_⟩
  · intro i hi
    rw [List.mem_range'_1] at hi
    exact drawAux_lastState_mem (stop - start) start start s i hi.1 hi.2
  · unfold draw
    apply drawAux_noop
    intro i h1 h2
    rw [drawAux_getCurrent, drawAux_lastState_mem (stop - start) start start s i h1 h2]

theorem drawAux_ops_forced :
    ∀ (n sc index : Nat) (s : CellsState),
      (∀ i, index ≤ i → i < index + n → ¬ s.getCurrent i = s.lastStateArray i) →
      (drawAux sc index n s).2 = (List.range' index n).map (cellOp s sc) := by
  intro n
  induction n with
  | zero => intro sc index s _; rfl
  | succ k ih =>
      intro sc index s h
      rw [drawAux, if_pos (h index (Nat.le_refl index) (by omega))]
      show cellOp s sc index :: (drawAux sc (index + 1) k (recordCell s index)).2 = _
      rw [ih sc (index + 1) (recordCell s index) (by
        intro i h1 h2
        rw [recordCell_getCurrent]
        show ¬ s.getCurrent i = Function.update s.lastStateArray index (s.getCurrent index) i
        rw [Function.update_noteq (by omega)]
        exact h i (by omega) (by omega))]
      rw [List.range'_succ]
      rfl

/-- C7: if every `current()` entry of the partition is 0 or 1 and every
`lastRendered` entry has been set to the sentinel 2, the next `draw`
performs exactly one stamp-or-clear operation per cell of the partition —
a stamp where `current()` is nonzero and a clear where it is zero. -/
theorem cellevo_C7 (s : CellsState) (start stop : Nat)
    (hcur : ∀ i ∈ List.range' start (stop - start),
      s.getCurrent i = 0 ∨ s.getCurrent i = 1)
    (hlast : ∀ i ∈ List.range' start (stop - start), s.lastStateArray i = 2) :
    (draw start stop s).2 = (List.range' start (stop - start)).map (cellOp s start) ∧
    (draw start stop s).2.length = stop - start := by
  have hops : (draw start stop s).2 = (List.range' start (stop - start)).map (cellOp s start) := by
    apply drawAux_ops_forced
    intro i h1 h2
    have hm : i ∈ List.range' start (stop - start) := List.mem_range'_1.mpr ⟨h1, h2⟩
    have := hcur i hm
    have := hlast i hm
    omega
  exact ⟨hops, by rw [hops, List.length_map, List.length_range']⟩

theorem cellevo_C7_witness :
    ((∀ i ∈ List.range' 0 (4 - 0), redrawState.getCurrent i = 0 ∨ redrawState.getCurrent i = 1) ∧
     (∀ i ∈ List.range' 0 (4 - 0), redrawState.lastStateArray i = 2)) ∧
    ((draw 0 4 redrawState).2 = (List.range' 0 (4 - 0)).map (cellOp redrawState 0) ∧
     (draw 0 4 redrawState).2.length = 4 - 0) :=
  ⟨⟨by decide, by decide⟩, cellevo_C7 redrawState 0 4 (by decide) (by decide)⟩

/-! ## Lemmas about the coordinator barrier -/

theorem completionsFired_waiting :
    ∀ (k : Nat) (c : WorkersController),
      (completionsFired k c).1.waiting = c.waiting + k ∧
      (completionsFired k c).1.count = c.count := by
  intro k
  induction k with
  | zero => intro c; exact ⟨by simp [completionsFired], rfl⟩
  | succ n ih =>
      intro c
      obtain ⟨h1, h2⟩ := ih { c with waiting := c.waiting + 1 }
      constructor
      · show (completionsFired n { c with waiting := c.waiting + 1 }).1.waiting = _
        rw [h1]
        push_cast
        ring
      · exact h2

theorem completionsFired_count :
    ∀ (k : Nat) (c : WorkersController),
      (completionsFired k c).2
        = if c.waiting < c.count ∧ c.count ≤ c.waiting + k then 1 else 0 := by
  intro k
  induction k with
  | zero =>
      intro c
      rw [completionsFired]
      split <;> omega
  | succ n ih =>
      intro c
      rw [completionsFired]
      show (if (c.waiting + 1 == c.count) = true then 1 else 0)
          + (completionsFired n { c with waiting := c.waiting + 1 }).2 = _
      rw [ih]
      simp only [beq_iff_eq]
      split_ifs <;> push_cast at * <;> omega

/-- C8: from `waiting = N` with `N` workers, a broadcast brings `waiting`
to 0; after `k ≤ N` completion notifications the phase-transition policy
has fired exactly once when `k = N` and never for fewer, and until the
barrier (`k < N`) the waiting count stays below `N`. -/
theorem cellevo_C8 (n k : Nat) (hn : 1 ≤ n) (hk : k ≤ n) :
    ((WorkersController.mk n n).post (-1)).waiting = 0 ∧
    (completionsFired k ((WorkersController.mk n n).post (-1))).2
      = (if k = n then 1 else 0) ∧
    (completionsFired k ((WorkersController.mk n n).post (-1))).1.waiting = (k : Int) ∧
    (k < n →
      (completionsFired k ((WorkersController.mk n n).post (-1))).1.waiting < (n : Int)) := by
  have hpost : (WorkersController.mk n n).post (-1) = WorkersController.mk n 0 := by
    rw [WorkersController.post, if_neg (by omega)]
    show WorkersController.mk n ((n : Int) - n) = _
    rw [sub_self]
  rw [hpost]
  refine ⟨rfl, ?_, ?_, ?_⟩
  · rw [completionsFired_count]
    show (if (0 : Int) < n ∧ (n : Int) ≤ 0 + k then 1 else 0) = _
    split_ifs <;> omega
  · rw [(completionsFired_waiting k (WorkersController.mk n 0)).1]
    show (0 : Int) + k = k
    rw [zero_add]
  · intro hlt
    rw [(completionsFired_waiting k (WorkersController.mk n 0)).1]
    show (0 : Int) + k < n
    omega

theorem cellevo_C8_witness :
    (1 ≤ 3 ∧ 3 ≤ 3) ∧
    (((WorkersController.mk 3 3).post (-1)).waiting = 0 ∧
     (completionsFired 3 ((WorkersController.mk 3 3).post (-1))).2
       = (if (3 : Nat) = 3 then 1 else 0) ∧
     (completionsFired 3 ((WorkersController.mk 3 3).post (-1))).1.waiting = ((3 : Nat) : Int) ∧
     ((3 : Nat) < 3 →
       (completionsFired 3 ((WorkersController.mk 3 3).post (-1))).1.waiting < ((3 : Nat) : Int))) :=
  ⟨⟨by decide, by decide⟩, cellevo_C8 3 3 (by decide) (by decide)⟩

/-- C9: for every incoming message the worker's `relay` handler posts
exactly one `<WAITING-AFTER>` completion notification, tagged with the
received message's type and posted last; a recognized command posts only
that, and an unrecognized type first posts an `<ERROR>` notification
carrying a human-readable string, so the barrier count still advances. -/
theorem cellevo_C9 (t r : String) :
    (relayEmits t r).filter isCompletion = [WorkerMsg.waitingAfter t] ∧
    (relayEmits t r).getLast? = some (WorkerMsg.waitingAfter t) ∧
    (if t ∈ recognizedCommands
     then relayEmits t r = [WorkerMsg.waitingAfter t]
     else relayEmits t r
        = [WorkerMsg.errorMsg ("worker received unknown type of message: " ++ r),
           WorkerMsg.waitingAfter t]) := by
  by_cases h1 : t = "<INIT>"
  · simp [relayEmits, recognizedCommands, isCompletion, h1]
  by_cases h2 : t = "<EVOLVE>"
  · simp [relayEmits, recognizedCommands, isCompletion, h2]
  by_cases h3 : t = "<RENDER>"
  · simp [relayEmits, recognizedCommands, isCompletion, h3]
  by_cases h4 : t = "<CHANGE-RULES>"
  · simp [relayEmits, recognizedCommands, isCompletion, h4]
  by_cases h5 : t = "<RANDOM>"
  · simp [relayEmits, recognizedCommands, isCompletion, h5]
  by_cases h6 : t = "<CLEAR>"
  · simp [relayEmits, recognizedCommands, isCompletion, h6]
  simp [relayEmits, recognizedCommands, isCompletion, h1, h2, h3, h4, h5, h6]

/-- C10: the mouse handler `switchCell` either leaves the grid unchanged
(when the computed column or row is out of range) or toggles exactly one
`current()` entry at the in-bounds flat index `row * xLen + column`,
leaving `next()`, `lastRendered`, the dimensions and the control byte
untouched. -/
theorem cellevo_C10 (cc cr : Int) (s : CellsState) (h : s.indication ≤ 1) :
    if (0 ≤ cc ∧ cc ≤ (s.xLen : Int) - 1) ∧ (0 ≤ cr ∧ cr ≤ (s.yLen : Int) - 1) then
      cr.toNat * s.xLen + cc.toNat < s.xLen * s.yLen ∧
      (switchCell cc cr s).getCurrent (cr.toNat * s.xLen + cc.toNat)
        = (if s.getCurrent (cr.toNat * s.xLen + cc.toNat) = 0 then 1 else 0) ∧
      (∀ j, ¬ j = cr.toNat * s.xLen + cc.toNat →
        (switchCell cc cr s).getCurrent j = s.getCurrent j) ∧
      (switchCell cc cr s).getNext = s.getNext ∧
      (switchCell cc cr s).lastStateArray = s.lastStateArray ∧
      (switchCell cc cr s).xLen = s.xLen ∧
      (switchCell cc cr s).yLen = s.yLen ∧
      (switchCell cc cr s).indication = s.indication
    else switchCell cc cr s = s := by
  by_cases hc : (0 ≤ cc ∧ cc ≤ (s.xLen : Int) - 1) ∧ (0 ≤ cr ∧ cr ≤ (s.yLen : Int) - 1)
  · rw [if_pos hc]
    have hsw : switchCell cc cr s
        = s.setCurrentAt (cr.toNat * s.xLen + cc.toNat)
            (if s.getCurrent (cr.toNat * s.xLen + cc.toNat) = 0 then 1 else 0) := by
      rw [switchCell, if_pos hc]
    have hcol : cc.toNat < s.xLen := by omega
    have hrow : cr.toNat < s.yLen := by omega
    refine ⟨?_, ?_, ?_, ?_, ?_, ?_, ?_, ?_⟩
    · calc cr.toNat * s.xLen + cc.toNat < (cr.toNat + 1) * s.xLen := by
            rw [Nat.succ_mul]; omega
        _ ≤ s.yLen * s.xLen := Nat.mul_le_mul_right _ hrow
        _ = s.xLen * s.yLen := Nat.mul_comm _ _
    · rw [hsw, getCurrent_setCurrentAt, Function.update_same]
    · intro j hj
      rw [hsw, getCurrent_setCurrentAt, Function.update_noteq hj]
    · rw [hsw, getNext_setCurrentAt _ _ _ h]
    · rw [hsw, setCurrentAt_lastState]
    · rw [hsw, setCurrentAt_xLen]
    · rw [hsw, setCurrentAt_yLen]
    · rw [hsw, setCurrentAt_indication]
  · rw [if_neg hc, switchCell, if_neg hc]

theorem cellevo_C10_witness :
    blinkerState.indication ≤ 1 ∧
    (if (0 ≤ (1 : Int) ∧ (1 : Int) ≤ (blinkerState.xLen : Int) - 1)
        ∧ (0 ≤ (1 : Int) ∧ (1 : Int) ≤ (blinkerState.yLen : Int) - 1) then
      (1 : Int).toNat * blinkerState.xLen + (1 : Int).toNat
          < blinkerState.xLen * blinkerState.yLen ∧
      (switchCell 1 1 blinkerState).getCurrent
          ((1 : Int).toNat * blinkerState.xLen + (1 : Int).toNat)
        = (if blinkerState.getCurrent ((1 : Int).toNat * blinkerState.xLen + (1 : Int).toNat) = 0
           then 1 else 0) ∧
      (∀ j, ¬ j = (1 : Int).toNat * blinkerState.xLen + (1 : Int).toNat →
        (switchCell 1 1 blinkerState).getCurrent j = blinkerState.getCurrent j) ∧
      (switchCell 1 1 blinkerState).getNext = blinkerState.getNext ∧
      (switchCell 1 1 blinkerState).lastStateArray = blinkerState.lastStateArray ∧
      (switchCell 1 1 blinkerState).xLen = blinkerState.xLen ∧
      (switchCell 1 1 blinkerState).yLen = blinkerState.yLen ∧
      (switchCell 1 1 blinkerState).indication = blinkerState.indication
    else switchCell 1 1 blinkerState = blinkerState) :=
  ⟨by decide, cellevo_C10 1 1 blinkerState (by decide)⟩

end Cellevo
